import Mathlib

/-!
Shallow embedding of `src/advanced-vector/vector.h`.

The C++ container is a pair of a raw storage block (`RawMemory<T>`: a buffer
plus a capacity, no element lifetimes) and a `Vector<T>` that owns the storage
and a count `size_` of constructed elements living in slots `[0, size_)`.
In the embedding a container state is a list of the live element values
together with the capacity of the owned block; the list length is the C++
`size_`, and the fact that slots `[0, size)` hold constructed objects while
`[size, capacity)` hold none is intrinsic to the representation.

Operations are translated from the source member functions one by one; the
fallible paths (element copy construction or element construction raising) are
embedded as explicit oracle-driven functions that also return a ledger of
object constructions and destructions performed inside a not-yet-committed
new buffer, so that the cleanup guarantees of the source can be stated.
-/

namespace AdvVector

/-- State of `Vector<T>` (vector.h lines 327-328): `data` is the sequence of
live constructed elements in slots `[0, size_)`, `capacity` the slot count of
the owned `RawMemory` block. -/
structure Vector (α : Type) where
  data : List α
  capacity : Nat
deriving Repr, DecidableEq

namespace Vector

variable {α : Type}

/-- Member `Size()` (line 150): the count of live elements. -/
def size (v : Vector α) : Nat := v.data.length

/-- The representation invariant `0 ≤ size ≤ capacity`; the lower bound is
intrinsic to `Nat`. -/
def WF (v : Vector α) : Prop := v.size ≤ v.capacity

instance (v : Vector α) : Decidable v.WF := by
  unfold WF; infer_instance

/-- Default constructor (line 86): empty, no allocation. -/
def empty : Vector α := ⟨[], 0⟩

/-- Sized constructor (lines 88-91): capacity `n`, `n` value-constructed
elements. -/
def sized [Inhabited α] (n : Nat) : Vector α := ⟨List.replicate n default, n⟩

/-- Copy constructor (lines 93-96): capacity `other.size_`, elements copied. -/
def copyCtor (other : Vector α) : Vector α := ⟨other.data, other.size⟩

/-- Move constructor (lines 98-100): the target takes the storage and size,
the source is left with no buffer and size 0. Returns (target, source). -/
def moveCtor (other : Vector α) : Vector α × Vector α :=
  (⟨other.data, other.capacity⟩, ⟨[], 0⟩)

/-- Copy assignment, non-self case (lines 102-121 with `this != &rhs`).
If `rhs.size_ > data_.Capacity()` a full temporary copy is built and swapped
in; otherwise `std::copy_n` overwrites the common prefix in place, then the
tail `[size_, rhs.size_)` is copy-constructed or the excess `[rhs.size_,
size_)` is destroyed, and the size is updated, the capacity staying as it
was. -/
def copyAssignDistinct (a rhs : Vector α) : Vector α :=
  if a.capacity < rhs.size then
    ⟨rhs.data, rhs.size⟩
  else
    let m := min a.size rhs.size
    let buf := rhs.data.take m ++ a.data.drop m
    if a.size < rhs.size then
      ⟨buf ++ rhs.data.drop a.size, a.capacity⟩
    else
      ⟨buf.take rhs.size, a.capacity⟩

/-- Member `Swap` (lines 145-148): exchanges storage and sizes. -/
def Swap (a b : Vector α) : Vector α × Vector α := (b, a)

/-- Move assignment (lines 123-126): implemented as `Swap(rhs)`; the target
takes the source state and the source receives the old target state. -/
def moveAssign (a rhs : Vector α) : Vector α × Vector α := Swap a rhs

/-- Member `Reserve` (lines 132-143): no-op unless `new_capacity` exceeds the current
capacity; otherwise the elements are relocated (by move or copy, values
preserved on the success path) into a block of exactly `new_capacity`. -/
def Reserve (v : Vector α) (newCapacity : Nat) : Vector α :=
  if newCapacity ≤ v.capacity then v else ⟨v.data, newCapacity⟩

/-- Member `Resize` (lines 167-177): shrink destroys the excess `[new_size, size_)`;
grow reserves when needed and value-constructs `[size_, new_size)`. -/
def Resize [Inhabited α] (v : Vector α) (newSize : Nat) : Vector α :=
  if newSize < v.size then
    ⟨v.data.take newSize, v.capacity⟩
  else
    let g := if v.capacity < newSize then Reserve v newSize else v
    ⟨g.data ++ List.replicate (newSize - v.size) default, g.capacity⟩

/-- Member `EmplaceBack`, success path (lines 197-227): on `size_ == Capacity()` the
doubled-capacity block (capacity 1 from 0) is filled by relocating the old
elements and constructing the new one at slot `size_`; otherwise the new
element is constructed in place at slot `size_`. -/
def EmplaceBack (v : Vector α) (x : α) : Vector α :=
  if v.size = v.capacity then
    let newCapacity := if v.size = 0 then 1 else v.size * 2
    ⟨v.data ++ [x], newCapacity⟩
  else
    ⟨v.data ++ [x], v.capacity⟩

/-- Member `PushBack` (lines 179-185) forwards to `EmplaceBack`. -/
def PushBack (v : Vector α) (x : α) : Vector α := EmplaceBack v x

/-- Member `PopBack` (lines 187-190): destroys the last live element and decrements
the size; `size_ > 0` is an asserted precondition. -/
def PopBack (v : Vector α) : Vector α := ⟨v.data.dropLast, v.capacity⟩

/-- The in-place insertion shift loop of `EmplaceWithoutRealloc` (lines
315-317): `for (size_t i = size_ - 1; i > index; --i) data_[i] =
std::move(data_[i - 1]);`. `shiftTail index b i` runs the loop on buffer `b`
starting at `i` and stopping once the counter reaches `index`. -/
def shiftTail [Inhabited α] (index : Nat) : List α → Nat → List α
  | b, 0 => b
  | b, i + 1 =>
    if index < i + 1 then shiftTail index (b.set (i + 1) (b.getD i default)) i
    else b

/-- Member `EmplaceWithoutRealloc` (lines 308-325): a temporary is built from the
arguments; if the index is interior the last element is move-constructed into
slot `size_`, the loop shifts `(index, size_-1]` rightward, and the temporary
is move-assigned into slot `index`; otherwise (within the `index ≤ size_`
contract this means `index = size_`) the temporary is constructed at the end.
Capacity is untouched. -/
def EmplaceWithoutRealloc [Inhabited α] (v : Vector α) (index : Nat) (x : α) :
    Vector α :=
  if index < v.size then
    let b0 := v.data ++ [v.data.getD (v.size - 1) default]
    ⟨(shiftTail index b0 (v.size - 1)).set index x, v.capacity⟩
  else
    ⟨v.data ++ [x], v.capacity⟩

/-- Member `EmplaceWithRealloc`, success path (lines 286-306): a doubled-capacity
block receives `[0, index)`, then the new element at `index`, then
`[index, size_)`; the old elements are destroyed and the block swapped in. -/
def EmplaceWithRealloc (v : Vector α) (index : Nat) (x : α) : Vector α :=
  let newCapacity := if v.size = 0 then 1 else v.size * 2
  ⟨v.data.take index ++ x :: v.data.drop index, newCapacity⟩

/-- Member `Emplace`, success path (lines 257-263): dispatches on
`size_ == Capacity()`. The position iterator is embedded as the index
`pos - begin()`. -/
def Emplace [Inhabited α] (v : Vector α) (index : Nat) (x : α) : Vector α :=
  if v.size = v.capacity then EmplaceWithRealloc v index x
  else EmplaceWithoutRealloc v index x

/-- Member `Insert` (lines 265-271) forwards to `Emplace`. -/
def Insert [Inhabited α] (v : Vector α) (index : Nat) (x : α) : Vector α :=
  Emplace v index x

/-- The leftward shift loop of `Erase` (line 276): `std::move(mutable_pos + 1,
data_.GetAddress() + size_, mutable_pos)` assigns `b[j] := b[j+1]` for `j`
from `index` up to `stop - 1`, reading each source before it is overwritten. -/
def shiftLeft [Inhabited α] (b : List α) (j stop : Nat) : List α :=
  if h : j < stop then shiftLeft (b.set j (b.getD (j + 1) default)) (j + 1) stop
  else b
termination_by stop - j

/-- Member `Erase` (lines 273-279): elements of `(index, size_)` are move-assigned
one slot leftward, the vacated last slot is destroyed and the size
decremented; `index < size_` is an asserted precondition. -/
def Erase [Inhabited α] (v : Vector α) (index : Nat) : Vector α :=
  ⟨(shiftLeft v.data index (v.size - 1)).take (v.size - 1), v.capacity⟩

/-- Ledger of element-object lifetimes inside a not-yet-committed new buffer:
how many objects were constructed there and how many of those were destroyed
again before the operation returned or the failure propagated. -/
structure Ledger where
  constructed : Nat
  destroyed : Nat
deriving Repr, DecidableEq

/-- Algorithm `std::uninitialized_copy_n` with a fallible element copy constructor.
`ok k` tells whether the `k`-th copy construction (global count, threaded
through) succeeds. Per the C++ library contract the algorithm destroys the
objects it itself constructed when a copy raises, and the failure propagates
(`Except.error`); on success it returns the copied values. The ledger counts
constructions and destructions in the destination buffer. -/
def uninitializedCopyN (ok : Nat → Bool) :
    List α → Nat → Except Unit (List α) × Nat × Ledger
  | [], k => (Except.ok [], k, ⟨0, 0⟩)
  | a :: rest, k =>
    if ok k then
      match uninitializedCopyN ok rest (k + 1) with
      | (Except.ok res, j, L) => (Except.ok (a :: res), j, ⟨L.constructed + 1, L.destroyed⟩)
      | (Except.error e, j, L) => (Except.error e, j, ⟨L.constructed + 1, L.destroyed + 1⟩)
    else (Except.error (), k + 1, ⟨0, 0⟩)

/-- Member `EmplaceBack`, growth path (lines 199-220), relocation by copy (the
`if constexpr` branch taken when `T` is copy constructible and its move may
raise). `ok` drives the relocating copy constructions, `ctorOk` the final
`std::construct_at` at slot `size_` guarded by `try`/`catch`; the `catch`
destroys the `size_` relocated objects and rethrows. Returns the container
state afterwards, whether the call succeeded, and the new-buffer ledger;
`data_` and `size_` are written only after the guarded region, so on failure
the state is the untouched receiver. -/
def EmplaceBackGrowCopy (ok : Nat → Bool) (ctorOk : Bool) (v : Vector α)
    (x : α) : Vector α × Bool × Ledger :=
  let newCapacity := if v.size = 0 then 1 else v.size * 2
  match uninitializedCopyN ok v.data 0 with
  | (Except.error _, _, L) => (v, false, L)
  | (Except.ok relocated, _, L) =>
    if ctorOk then
      (⟨relocated ++ [x], newCapacity⟩, true, ⟨L.constructed + 1, L.destroyed⟩)
    else
      (v, false, ⟨L.constructed, L.destroyed + v.size⟩)

/-- Member `EmplaceBack`, growth path (lines 199-220), relocation by move (the
`if constexpr` branch taken when the move constructor of `T` cannot raise).
The moves cannot fail, but they leave each old slot holding the moved-from
residue `movedFrom a` of its former value `a`. If the final construction
fails (`ctorOk = false`), the `catch` destroys the relocated objects in the
new block and the old block — now holding the residues — remains the
storage. -/
def EmplaceBackGrowMove (movedFrom : α → α) (ctorOk : Bool) (v : Vector α)
    (x : α) : Vector α × Bool × Ledger :=
  let newCapacity := if v.size = 0 then 1 else v.size * 2
  if ctorOk then
    (⟨v.data ++ [x], newCapacity⟩, true, ⟨v.size + 1, 0⟩)
  else
    (⟨v.data.map movedFrom, v.capacity⟩, false, ⟨v.size, v.size⟩)

/-- Member `EmplaceWithRealloc` (lines 286-306), relocation by copy, with fallible
element operations. The function body has no `try`/`catch`: when the middle
`std::construct_at` raises (`ctorOk = false`), or the second
`std::uninitialized_copy_n` raises, the objects already constructed by the
earlier statements in the new block are not destroyed — the `RawMemory`
destructor only deallocates — so the ledger stays unbalanced while the
failure propagates with `data_`/`size_` untouched. -/
def EmplaceWithReallocCopy (ok : Nat → Bool) (ctorOk : Bool) (v : Vector α)
    (index : Nat) (x : α) : Vector α × Bool × Ledger :=
  let newCapacity := if v.size = 0 then 1 else v.size * 2
  match uninitializedCopyN ok (v.data.take index) 0 with
  | (Except.error _, _, L) => (v, false, L)
  | (Except.ok front, k, L1) =>
    if ctorOk then
      match uninitializedCopyN ok (v.data.drop index) k with
      | (Except.error _, _, L2) =>
        (v, false, ⟨L1.constructed + 1 + L2.constructed, L1.destroyed + L2.destroyed⟩)
      | (Except.ok back, _, L2) =>
        (⟨front ++ x :: back, newCapacity⟩, true,
          ⟨L1.constructed + 1 + L2.constructed, L1.destroyed + L2.destroyed⟩)
    else (v, false, ⟨L1.constructed, L1.destroyed⟩)

/-- Copy assignment (lines 102-121), non-self case, with fallible copy
constructions while building the temporary on the reallocating branch
(`Vector tmp(rhs)`, lines 93-96): if a copy raises, `uninitialized_copy_n`
destroys what it constructed, the partially built temporary releases its
block, and the receiver is untouched. The in-capacity branch is the success
path of `copyAssignDistinct`. -/
def copyAssignFallible (ok : Nat → Bool) (a rhs : Vector α) :
    Vector α × Bool :=
  if a.capacity < rhs.size then
    match uninitializedCopyN ok rhs.data 0 with
    | (Except.error _, _, _) => (a, false)
    | (Except.ok copied, _, _) => (⟨copied, rhs.size⟩, true)
  else (copyAssignDistinct a rhs, true)

/-- Counts of element-level operations performed by one container call:
copy constructions, copy assignments, and destructions. -/
structure OpCount where
  copyCtors : Nat
  copyAssigns : Nat
  destroys : Nat
deriving Repr, DecidableEq

/-- Copy assignment (lines 102-121) with its `this != &rhs` guard made
explicit (`isSelf` embeds the pointer equality test) and the element
operations counted: self-assignment falls through the guard and performs
nothing; the reallocating branch copy-constructs `rhs.size` elements into the
temporary and the temporary destructor destroys the old `a.size` elements
after the swap; the in-capacity branch copy-assigns the common prefix and
then copy-constructs the growth tail or destroys the excess. -/
def copyAssignOps (isSelf : Bool) (a rhs : Vector α) : Vector α × OpCount :=
  if isSelf then (a, ⟨0, 0, 0⟩)
  else if a.capacity < rhs.size then
    (⟨rhs.data, rhs.size⟩, ⟨rhs.size, 0, a.size⟩)
  else
    let m := min a.size rhs.size
    let buf := rhs.data.take m ++ a.data.drop m
    if a.size < rhs.size then
      (⟨buf ++ rhs.data.drop a.size, a.capacity⟩, ⟨rhs.size - a.size, m, 0⟩)
    else
      (⟨buf.take rhs.size, a.capacity⟩, ⟨0, m, a.size - rhs.size⟩)

/-- The compile-time element-type facts consulted by the relocation branches
(lines 136, 203, 292): whether the move constructor of `T` cannot raise, and
whether `T` is copy constructible. -/
structure RelocTraits where
  nothrowMoveConstructible : Bool
  copyConstructible : Bool
deriving Repr, DecidableEq

/-- The branch condition `std::is_nothrow_move_constructible_v<T> ||
!std::is_copy_constructible_v<T>` shared verbatim by `Reserve` (line 136),
`EmplaceBack` (line 203) and `EmplaceWithRealloc` (line 292): relocation uses
move construction exactly when it holds, copy construction otherwise. -/
def relocUsesMove (tr : RelocTraits) : Bool :=
  tr.nothrowMoveConstructible || !tr.copyConstructible

/-- Instrumented relocation of `n` existing elements into a new block:
`uninitialized_move_n` performs `n` move constructions and no copies,
`uninitialized_copy_n` performs `n` copy constructions and no moves.
Returns (copy constructions, move constructions). -/
def relocCounts (tr : RelocTraits) (n : Nat) : Nat × Nat :=
  if relocUsesMove tr then (0, n) else (n, 0)

/-- Member `EmplaceBack`, growth path, with the relocation instrumented by
`relocCounts`: the resulting state together with the copy/move construction
counts spent on relocating the `size_` existing elements. -/
def EmplaceBackGrowCounts (tr : RelocTraits) (v : Vector α) (x : α) :
    Vector α × Nat × Nat :=
  let newCapacity := if v.size = 0 then 1 else v.size * 2
  (⟨v.data ++ [x], newCapacity⟩, relocCounts tr v.size)

/-- A successful `uninitialized_copy_n` reproduces the source values. -/
theorem uninitializedCopyN_ok_eq (ok : Nat → Bool) (l : List α) (k : Nat)
    (res : List α) (j : Nat) (L : Ledger)
    (h : uninitializedCopyN ok l k = (Except.ok res, j, L)) : res = l := by
  induction l generalizing k res j L with
  | nil => simp [uninitializedCopyN] at h; exact h.1
  | cons a rest ih =>
    by_cases hk : ok k
    · rcases hrec : uninitializedCopyN ok rest (k + 1) with ⟨r, j1, L1⟩
      cases r with
      | ok res1 =>
        simp [uninitializedCopyN, hk, hrec] at h
        rcases h with ⟨h1, _, _⟩
        rw [← h1, ih (k + 1) res1 j1 L1 hrec]
      | error e => simp [uninitializedCopyN, hk, hrec] at h
    · simp [uninitializedCopyN, hk] at h

/-- A successful `uninitialized_copy_n` over a source of length `n` leaves
`n` constructed objects in the destination and destroys none of them. -/
theorem uninitializedCopyN_ok_ledger (ok : Nat → Bool) (l : List α) (k : Nat)
    (res : List α) (j : Nat) (L : Ledger)
    (h : uninitializedCopyN ok l k = (Except.ok res, j, L)) :
    L.constructed = l.length ∧ L.destroyed = 0 := by
  induction l generalizing k res j L with
  | nil =>
    simp [uninitializedCopyN] at h
    simp [← h.2.2]
  | cons a rest ih =>
    by_cases hk : ok k
    · rcases hrec : uninitializedCopyN ok rest (k + 1) with ⟨r, j1, L1⟩
      cases r with
      | ok res1 =>
        simp [uninitializedCopyN, hk, hrec] at h
        rcases ih (k + 1) res1 j1 L1 hrec with ⟨hc, hd⟩
        rw [← h.2.2]
        simp [hc, hd]
      | error e => simp [uninitializedCopyN, hk, hrec] at h
    · simp [uninitializedCopyN, hk] at h

/-- A failed `uninitialized_copy_n` destroys exactly the objects it
constructed before raising: its ledger is balanced. -/
theorem uninitializedCopyN_error_balanced (ok : Nat → Bool) (l : List α)
    (k : Nat) (e : Unit) (j : Nat) (L : Ledger)
    (h : uninitializedCopyN ok l k = (Except.error e, j, L)) :
    L.constructed = L.destroyed := by
  induction l generalizing k e j L with
  | nil => simp [uninitializedCopyN] at h
  | cons a rest ih =>
    by_cases hk : ok k
    · rcases hrec : uninitializedCopyN ok rest (k + 1) with ⟨r, j1, L1⟩
      cases r with
      | ok res1 => simp [uninitializedCopyN, hk, hrec] at h
      | error e1 =>
        simp [uninitializedCopyN, hk, hrec] at h
        rw [← h.2]
        simp [ih (k + 1) e1 j1 L1 hrec]
    · simp [uninitializedCopyN, hk] at h
      rw [← h.2]

theorem shiftTail_length [Inhabited α] (index : Nat) (b : List α) (i : Nat) :
    (shiftTail index b i).length = b.length := by
  induction i generalizing b with
  | zero => rfl
  | succ i ih =>
    by_cases h : index < i + 1
    · simp [shiftTail, h, ih]
    · simp [shiftTail, h]

/-- Pointwise effect of the rightward shift loop: positions in `(index, i]`
receive the value of their left neighbour, all others keep their value. -/
theorem shiftTail_getElem? [Inhabited α] (index : Nat) (b : List α) (i : Nat)
    (j : Nat) (hj : j < b.length) :
    (shiftTail index b i)[j]? =
      if index < j ∧ j ≤ i then b[j - 1]? else b[j]? := by
  induction i generalizing b with
  | zero =>
    have hcond : ¬(index < j ∧ j ≤ 0) := by omega
    simp only [shiftTail]
    rw [if_neg hcond]
  | succ i ih =>
    by_cases h : index < i + 1
    · have hlen : j < (b.set (i + 1) (b.getD i default)).length := by
        simpa using hj
      rw [shiftTail, if_pos h, ih _ hlen]
      rcases Nat.lt_trichotomy j (i + 1) with hji | hji | hji
      · by_cases hcase : index < j ∧ j ≤ i
        · have h1 : index < j ∧ j ≤ i + 1 := ⟨hcase.1, by omega⟩
          rw [if_pos hcase, if_pos h1, List.getElem?_set_ne (by omega)]
        · have h1 : ¬(index < j ∧ j ≤ i + 1) := by omega
          rw [if_neg hcase, if_neg h1, List.getElem?_set_ne (by omega)]
      · have hi1 : i + 1 < b.length := hji ▸ hj
        have hcase : ¬(index < j ∧ j ≤ i) := by omega
        have h1 : index < j ∧ j ≤ i + 1 := by omega
        rw [if_neg hcase, if_pos h1, hji, List.getElem?_set_self hi1,
          List.getD_eq_getElem _ _ (by omega), List.getElem?_eq_getElem (by omega)]
        simp
      · have hcase : ¬(index < j ∧ j ≤ i) := by omega
        have h1 : ¬(index < j ∧ j ≤ i + 1) := by omega
        rw [if_neg hcase, if_neg h1, List.getElem?_set_ne (by omega)]
    · have h1 : ¬(index < j ∧ j ≤ i + 1) := by omega
      rw [shiftTail, if_neg h, if_neg h1]

theorem shiftLeft_length [Inhabited α] (b : List α) (j stop : Nat) :
    (shiftLeft b j stop).length = b.length := by
  generalize hn : stop - j = n
  induction n generalizing b j with
  | zero =>
    rw [shiftLeft, dif_neg (by omega)]
  | succ n ih =>
    rw [shiftLeft]
    by_cases h : j < stop
    · rw [dif_pos h, ih _ _ (by omega)]
      simp
    · rw [dif_neg h]

/-- Pointwise effect of the leftward shift loop: positions in `[j, stop)`
receive the value of their right neighbour, all others keep their value. -/
theorem shiftLeft_getElem? [Inhabited α] (b : List α) (j stop : Nat)
    (hstop : stop < b.length) (p : Nat) (hp : p < b.length) :
    (shiftLeft b j stop)[p]? =
      if j ≤ p ∧ p < stop then b[p + 1]? else b[p]? := by
  generalize hn : stop - j = n
  induction n generalizing b j with
  | zero =>
    have hcond : ¬(j ≤ p ∧ p < stop) := by omega
    rw [shiftLeft, dif_neg (by omega), if_neg hcond]
  | succ n ih =>
    rw [shiftLeft]
    by_cases h : j < stop
    · have hlen : stop < (b.set j (b.getD (j + 1) default)).length := by
        simpa using hstop
      have hplen : p < (b.set j (b.getD (j + 1) default)).length := by
        simpa using hp
      rw [dif_pos h, ih _ _ hlen hplen (by omega)]
      rcases Nat.lt_trichotomy p j with hpj | hpj | hpj
      · have hc1 : ¬(j + 1 ≤ p ∧ p < stop) := by omega
        have hc2 : ¬(j ≤ p ∧ p < stop) := by omega
        rw [if_neg hc1, if_neg hc2, List.getElem?_set_ne (by omega)]
      · subst hpj
        have hc1 : ¬(p + 1 ≤ p ∧ p < stop) := by omega
        have hc2 : p ≤ p ∧ p < stop := by omega
        have hj1 : p + 1 < b.length := by omega
        rw [if_neg hc1, if_pos hc2, List.getElem?_set_self (by omega),
          List.getD_eq_getElem _ _ hj1, List.getElem?_eq_getElem hj1]
      · by_cases hps : p < stop
        · have hc1 : j + 1 ≤ p ∧ p < stop := by omega
          have hc2 : j ≤ p ∧ p < stop := by omega
          rw [if_pos hc1, if_pos hc2, List.getElem?_set_ne (by omega)]
        · have hc1 : ¬(j + 1 ≤ p ∧ p < stop) := by omega
          have hc2 : ¬(j ≤ p ∧ p < stop) := by omega
          rw [if_neg hc1, if_neg hc2, List.getElem?_set_ne (by omega)]
    · have hcond : ¬(j ≤ p ∧ p < stop) := by omega
      rw [dif_neg h, if_neg hcond]

theorem insertIdx_eq_take_cons_drop (l : List α) (i : Nat) (x : α)
    (h : i ≤ l.length) :
    l.insertIdx i x = l.take i ++ x :: l.drop i := by
  induction l generalizing i with
  | nil =>
    have : i = 0 := by simpa using h
    simp [this]
  | cons a rest ih =>
    cases i with
    | zero => simp
    | succ i =>
      simp only [List.insertIdx_succ_cons, List.take_succ_cons, List.drop_succ_cons,
        List.cons_append]
      rw [ih _ (by simpa using h)]

/-- The in-place insertion buffer transformation at the list level: the
buffer after the last-element move, the shift loop, and the final assignment
equals `take index ++ x :: drop index`. -/
theorem shiftTail_insert [Inhabited α] (l : List α) (index : Nat) (x : α)
    (h : index < l.length) :
    (shiftTail index (l ++ [l.getD (l.length - 1) default])
        (l.length - 1)).set index x
      = l.take index ++ x :: l.drop index := by
  have hb0len : (l ++ [l.getD (l.length - 1) default]).length = l.length + 1 := by
    simp
  have hst : (shiftTail index (l ++ [l.getD (l.length - 1) default])
      (l.length - 1)).length = l.length + 1 := by
    rw [shiftTail_length, hb0len]
  apply List.ext_getElem?
  intro j
  by_cases hjlt : j < l.length + 1
  · rcases Nat.lt_trichotomy j index with hj | hj | hj
    · rw [List.getElem?_set_ne (by omega),
        shiftTail_getElem? index _ (l.length - 1) j (by omega),
        if_neg (by omega), List.getElem?_append_left (by omega),
        List.getElem?_append_left
          (by rw [List.length_take]; omega),
        List.getElem?_take_of_lt hj]
    · subst hj
      rw [List.getElem?_set_self (by omega),
        List.getElem?_append_right (by rw [List.length_take]; omega),
        List.length_take, Nat.min_eq_left (by omega), Nat.sub_self]
      simp
    · have hrhs : (l.take index ++ x :: l.drop index)[j]? = l[j - 1]? := by
        rw [List.getElem?_append_right
          (by rw [List.length_take]; omega), List.length_take,
          Nat.min_eq_left (by omega)]
        have hji : j - index = (j - index - 1) + 1 := by omega
        rw [hji]
        simp only [List.getElem?_cons_succ, List.getElem?_drop]
        congr 1
        omega
      rw [List.getElem?_set_ne (by omega), hrhs,
        shiftTail_getElem? index _ (l.length - 1) j (by omega)]
      by_cases hje : j ≤ l.length - 1
      · rw [if_pos ⟨hj, hje⟩, List.getElem?_append_left (by omega)]
      · have hjn : j = l.length := by omega
        rw [if_neg (by omega), hjn, List.getElem?_concat_length,
          List.getD_eq_getElem _ _ (by omega),
          List.getElem?_eq_getElem (by omega)]
  · rw [List.getElem?_eq_none (by rw [List.length_set, hst]; omega),
      List.getElem?_eq_none (by simp; omega)]

/-- The in-place path builds exactly the sequence with `x` inserted at
`index`. -/
theorem EmplaceWithoutRealloc_data [Inhabited α] (v : Vector α) (index : Nat)
    (x : α) (h : index < v.size) :
    (EmplaceWithoutRealloc v index x).data =
      v.data.take index ++ x :: v.data.drop index := by
  have hl := shiftTail_insert v.data index x h
  simpa [EmplaceWithoutRealloc, h] using hl

/-- Both `Emplace` paths produce the insertion of `x` at `index`. -/
theorem Emplace_data [Inhabited α] (v : Vector α) (index : Nat) (x : α)
    (h : index ≤ v.size) :
    (Emplace v index x).data = v.data.insertIdx index x := by
  rw [insertIdx_eq_take_cons_drop _ _ _ h]
  by_cases hcap : v.size = v.capacity
  · simp [Emplace, hcap, EmplaceWithRealloc]
  · rw [Emplace, if_neg hcap]
    by_cases hlt : index < v.size
    · exact EmplaceWithoutRealloc_data v index x hlt
    · have hie : index = v.size := by omega
      rw [EmplaceWithoutRealloc, if_neg (by omega), hie]
      simp [size]

/-- The erase buffer transformation at the list level: the leftward shift
followed by dropping the vacated last slot equals `eraseIdx`. -/
theorem shiftLeft_erase [Inhabited α] (l : List α) (index : Nat)
    (h : index < l.length) :
    (shiftLeft l index (l.length - 1)).take (l.length - 1)
      = l.eraseIdx index := by
  have hsl : (shiftLeft l index (l.length - 1)).length = l.length := by
    rw [shiftLeft_length]
  have herl : (l.eraseIdx index).length = l.length - 1 :=
    List.length_eraseIdx_of_lt h
  apply List.ext_getElem?
  intro p
  by_cases hp : p < l.length - 1
  · rw [List.getElem?_take_of_lt (by omega),
      shiftLeft_getElem? l index (l.length - 1) (by omega) p (by omega)]
    by_cases hpi : index ≤ p
    · rw [if_pos ⟨hpi, by omega⟩,
        List.getElem?_eq_getElem (n := p + 1) (by omega),
        List.getElem?_eq_getElem (l := l.eraseIdx index) (by omega),
        List.getElem_eraseIdx_of_ge _ _ _ _ hpi]
    · rw [if_neg (by omega),
        List.getElem?_eq_getElem (n := p) (by omega),
        List.getElem?_eq_getElem (l := l.eraseIdx index) (by omega),
        List.getElem_eraseIdx_of_lt _ _ _ _ (by omega)]
  · rw [List.getElem?_eq_none (by rw [List.length_take, hsl]; omega),
      List.getElem?_eq_none (by rw [herl]; omega)]

/-- Member `Erase` produces the removal of the element at `index`. -/
theorem Erase_data [Inhabited α] (v : Vector α) (index : Nat)
    (h : index < v.size) :
    (Erase v index).data = v.data.eraseIdx index := by
  have hl := shiftLeft_erase v.data index h
  simpa [Erase] using hl

theorem WF_empty : (empty : Vector α).WF := by
  simp [WF, empty, size]

theorem WF_sized [Inhabited α] (n : Nat) : (sized n : Vector α).WF := by
  simp [WF, sized, size]

theorem WF_copyCtor (v : Vector α) : (copyCtor v).WF := by
  simp [WF, copyCtor, size]

theorem WF_copyAssignDistinct {a rhs : Vector α} (ha : a.WF) :
    (copyAssignDistinct a rhs).WF := by
  have ha1 : a.data.length ≤ a.capacity := ha
  unfold copyAssignDistinct
  split
  · next h =>
    have h1 : a.capacity < rhs.data.length := h
    simp only [WF, size]
    omega
  · next h =>
    have h1 : ¬ a.capacity < rhs.data.length := h
    split
    · next h2 =>
      have h3 : a.data.length < rhs.data.length := h2
      simp only [WF, size, List.length_append, List.length_take,
        List.length_drop]
      omega
    · next h2 =>
      have h3 : ¬ a.data.length < rhs.data.length := h2
      simp only [WF, size, List.length_take, List.length_append,
        List.length_drop]
      omega

theorem WF_Reserve {v : Vector α} (hv : v.WF) (n : Nat) : (Reserve v n).WF := by
  have hv1 : v.data.length ≤ v.capacity := hv
  unfold Reserve
  split
  · exact hv
  · next h =>
    have h1 : ¬ n ≤ v.capacity := h
    simp only [WF, size]
    omega

theorem WF_Resize [Inhabited α] {v : Vector α} (hv : v.WF) (n : Nat) :
    (Resize v n).WF := by
  have hv1 : v.data.length ≤ v.capacity := hv
  unfold Resize Reserve
  split
  · next h =>
    have h1 : n < v.data.length := h
    simp only [WF, size, List.length_take]
    omega
  · next h =>
    have h1 : ¬ n < v.data.length := h
    split
    · next h2 =>
      have h3 : v.capacity < n := h2
      split
      · next h4 => omega
      · simp only [WF, size, List.length_append, List.length_replicate]
        omega
    · next h2 =>
      have h3 : ¬ v.capacity < n := h2
      simp only [WF, size, List.length_append, List.length_replicate]
      omega

theorem WF_EmplaceBack {v : Vector α} (hv : v.WF) (x : α) :
    (EmplaceBack v x).WF := by
  have hv1 : v.data.length ≤ v.capacity := hv
  unfold EmplaceBack
  split
  · next h =>
    have h1 : v.data.length = v.capacity := h
    simp only [WF, size, List.length_append, List.length_cons,
      List.length_nil]
    split
    · next h2 =>
      have h3 : v.data.length = 0 := h2
      omega
    · next h2 =>
      have h3 : ¬ v.data.length = 0 := h2
      omega
  · next h =>
    have h1 : ¬ v.data.length = v.capacity := h
    simp only [WF, size, List.length_append, List.length_cons,
      List.length_nil]
    omega

theorem WF_PopBack {v : Vector α} (hv : v.WF) : (PopBack v).WF := by
  have hv1 : v.data.length ≤ v.capacity := hv
  simp only [WF, size, PopBack, List.length_dropLast]
  omega

theorem WF_Emplace [Inhabited α] {v : Vector α} (hv : v.WF) (i : Nat) (x : α) :
    (Emplace v i x).WF := by
  have hv1 : v.data.length ≤ v.capacity := hv
  unfold Emplace EmplaceWithRealloc EmplaceWithoutRealloc
  split
  · next h =>
    have h1 : v.data.length = v.capacity := h
    simp only [WF, size, List.length_append, List.length_cons,
      List.length_take, List.length_drop]
    split
    · next h2 =>
      have h3 : v.data.length = 0 := h2
      omega
    · next h2 =>
      have h3 : ¬ v.data.length = 0 := h2
      omega
  · next h =>
    have h1 : ¬ v.data.length = v.capacity := h
    split
    · next h2 =>
      have h3 : i < v.data.length := h2
      simp only [WF, size, List.length_set, shiftTail_length,
        List.length_append, List.length_cons, List.length_nil]
      omega
    · next h2 =>
      have h3 : ¬ i < v.data.length := h2
      simp only [WF, size, List.length_append, List.length_cons,
        List.length_nil]
      omega

theorem WF_Erase [Inhabited α] {v : Vector α} (hv : v.WF) (i : Nat) :
    (Erase v i).WF := by
  have hv1 : v.data.length ≤ v.capacity := hv
  simp only [WF, size, Erase, List.length_take, shiftLeft_length]
  omega

theorem WF_EmplaceBackGrowCopy {v : Vector α} (hv : v.WF) (ok : Nat → Bool)
    (ctorOk : Bool) (x : α) : (EmplaceBackGrowCopy ok ctorOk v x).1.WF := by
  have hv1 : v.data.length ≤ v.capacity := hv
  unfold EmplaceBackGrowCopy
  rcases hrec : uninitializedCopyN ok v.data 0 with ⟨r, j, L⟩
  cases r with
  | error e => simpa [hrec] using hv
  | ok relocated =>
    have hre : relocated = v.data := uninitializedCopyN_ok_eq ok v.data 0 _ _ _ hrec
    cases ctorOk with
    | false => simpa [hrec] using hv
    | true =>
      simp [hrec, hre, WF, size]
      split <;> omega

theorem WF_EmplaceBackGrowMove {v : Vector α} (hv : v.WF) (movedFrom : α → α)
    (ctorOk : Bool) (x : α) : (EmplaceBackGrowMove movedFrom ctorOk v x).1.WF := by
  have hv1 : v.data.length ≤ v.capacity := hv
  unfold EmplaceBackGrowMove
  cases ctorOk with
  | false =>
    simp [WF, size]
    omega
  | true =>
    simp [WF, size]
    split <;> omega

theorem WF_EmplaceWithReallocCopy {v : Vector α} (hv : v.WF)
    (ok : Nat → Bool) (ctorOk : Bool) (i : Nat) (x : α) :
    (EmplaceWithReallocCopy ok ctorOk v i x).1.WF := by
  have hv1 : v.data.length ≤ v.capacity := hv
  unfold EmplaceWithReallocCopy
  rcases h1 : uninitializedCopyN ok (v.data.take i) 0 with ⟨r1, k, L1⟩
  cases r1 with
  | error e => simpa [h1] using hv
  | ok front =>
    have hfr : front = v.data.take i :=
      uninitializedCopyN_ok_eq ok _ 0 _ _ _ h1
    cases ctorOk with
    | false => simpa [h1] using hv
    | true =>
      rcases h2 : uninitializedCopyN ok (v.data.drop i) k with ⟨r2, k2, L2⟩
      cases r2 with
      | error e => simpa [h1, h2] using hv
      | ok back =>
        have hba : back = v.data.drop i :=
          uninitializedCopyN_ok_eq ok _ k _ _ _ h2
        simp [h1, h2, hfr, hba, WF, size]
        split <;> omega

theorem WF_copyAssignFallible {a rhs : Vector α} (ha : a.WF)
    (ok : Nat → Bool) : (copyAssignFallible ok a rhs).1.WF := by
  have ha1 : a.data.length ≤ a.capacity := ha
  unfold copyAssignFallible
  split
  · next h =>
    have h1 : a.capacity < rhs.data.length := h
    rcases hc : uninitializedCopyN ok rhs.data 0 with ⟨r, j, L⟩
    cases r with
    | error e => simpa [hc] using ha
    | ok copied =>
      have : copied = rhs.data := uninitializedCopyN_ok_eq ok _ 0 _ _ _ hc
      simp only [hc, this, WF, size]
      omega
  · exact WF_copyAssignDistinct (a := a) ha

/-- Reachable container states: the constructors, every public operation
completing normally (with its asserted preconditions), and every state an
operation leaves behind when an element failure propagates out of it. -/
inductive Reachable [Inhabited α] : Vector α → Prop where
  | ctorDefault : Reachable empty
  | ctorSized (n : Nat) : Reachable (sized n)
  | ctorCopy {v : Vector α} : Reachable v → Reachable (copyCtor v)
  | ctorMoveTarget {v : Vector α} : Reachable v → Reachable (moveCtor v).1
  | ctorMoveSource {v : Vector α} : Reachable v → Reachable (moveCtor v).2
  | assignCopy {a b : Vector α} : Reachable a → Reachable b →
      Reachable (copyAssignDistinct a b)
  | assignCopyOutcome {a b : Vector α} (ok : Nat → Bool) : Reachable a →
      Reachable b → Reachable (copyAssignFallible ok a b).1
  | assignMoveTarget {a b : Vector α} : Reachable a → Reachable b →
      Reachable (moveAssign a b).1
  | assignMoveSource {a b : Vector α} : Reachable a → Reachable b →
      Reachable (moveAssign a b).2
  | reserve {v : Vector α} (n : Nat) : Reachable v → Reachable (Reserve v n)
  | resize {v : Vector α} (n : Nat) : Reachable v → Reachable (Resize v n)
  | emplaceBack {v : Vector α} (x : α) : Reachable v →
      Reachable (EmplaceBack v x)
  | popBack {v : Vector α} : Reachable v → 0 < v.size →
      Reachable (PopBack v)
  | emplaceAt {v : Vector α} (i : Nat) (x : α) : Reachable v → i ≤ v.size →
      Reachable (Emplace v i x)
  | eraseAt {v : Vector α} (i : Nat) : Reachable v → i < v.size →
      Reachable (Erase v i)
  | growCopyOutcome {v : Vector α} (ok : Nat → Bool) (ctorOk : Bool) (x : α) :
      Reachable v → Reachable (EmplaceBackGrowCopy ok ctorOk v x).1
  | growMoveOutcome {v : Vector α} (movedFrom : α → α) (ctorOk : Bool) (x : α) :
      Reachable v → Reachable (EmplaceBackGrowMove movedFrom ctorOk v x).1
  | reallocEmplaceOutcome {v : Vector α} (ok : Nat → Bool) (ctorOk : Bool)
      (i : Nat) (x : α) : Reachable v →
      Reachable (EmplaceWithReallocCopy ok ctorOk v i x).1

/-- C3: for every reachable state of the container (after any sequence of
public operations that completed normally or by a propagated element
failure), `0 ≤ size ≤ capacity` holds; in the embedding the slots `[0, size)`
holding constructed elements and `[size, capacity)` holding none is intrinsic
to the state being the list of live values. -/
theorem c3_reachable_wf [Inhabited α] {v : Vector α} (h : Reachable v) :
    v.WF := by
  induction h with
  | ctorDefault => exact WF_empty
  | ctorSized n => exact WF_sized n
  | ctorCopy _ _ => exact WF_copyCtor _
  | ctorMoveTarget _ ih => exact ih
  | ctorMoveSource _ _ => exact WF_empty
  | assignCopy _ _ iha _ => exact WF_copyAssignDistinct iha
  | assignCopyOutcome ok _ _ iha _ => exact WF_copyAssignFallible iha ok
  | assignMoveTarget _ _ _ ihb => exact ihb
  | assignMoveSource _ _ iha _ => exact iha
  | reserve n _ ih => exact WF_Reserve ih n
  | resize n _ ih => exact WF_Resize ih n
  | emplaceBack x _ ih => exact WF_EmplaceBack ih x
  | popBack _ _ ih => exact WF_PopBack ih
  | emplaceAt i x _ _ ih => exact WF_Emplace ih i x
  | eraseAt i _ _ ih => exact WF_Erase ih i
  | growCopyOutcome ok ctorOk x _ ih => exact WF_EmplaceBackGrowCopy ih ok ctorOk x
  | growMoveOutcome movedFrom ctorOk x _ ih =>
    exact WF_EmplaceBackGrowMove ih movedFrom ctorOk x
  | reallocEmplaceOutcome ok ctorOk i x _ ih =>
    exact WF_EmplaceWithReallocCopy ih ok ctorOk i x

theorem c3_reachable_wf_witness :
    (EmplaceBack (empty : Vector Nat) 5).WF :=
  c3_reachable_wf (Reachable.emplaceBack 5 Reachable.ctorDefault)

/-- C4: from a full vector (`size = capacity = c`) one successful append
yields capacity exactly `max 1 (2c)`, and an append with spare capacity
leaves the capacity unchanged. -/
theorem c4_growth_capacity (v : Vector α) (x : α) :
    (v.size = v.capacity →
      (EmplaceBack v x).capacity = max 1 (2 * v.capacity)) ∧
    (v.size < v.capacity → (EmplaceBack v x).capacity = v.capacity) := by
  constructor
  · intro h
    simp only [EmplaceBack, if_pos h]
    split
    · next h2 =>
      simp only [← h, h2]
      omega
    · next h2 =>
      have h3 : 1 ≤ v.size := by omega
      simp only [← h]
      omega
  · intro h
    rw [EmplaceBack, if_neg (by omega)]

theorem c4_growth_capacity_witness :
    (EmplaceBack (⟨[5, 6], 2⟩ : Vector Nat) 7).capacity = max 1 (2 * 2) ∧
    (EmplaceBack (⟨[5], 2⟩ : Vector Nat) 7).capacity = 2 :=
  ⟨(c4_growth_capacity ⟨[5, 6], 2⟩ 7).1 (by decide),
   (c4_growth_capacity ⟨[5], 2⟩ 7).2 (by decide)⟩

/-- C5: relocation uses move construction exactly when the element type has a
never-failing move constructor or is not copy constructible, and for a
never-failing-move type a relocating growth performs zero copy constructions
of the existing elements (all `size` relocations are moves). -/
theorem c5_reloc_policy (tr : RelocTraits) (v : Vector α) (x : α) :
    (relocUsesMove tr = true ↔
      (tr.nothrowMoveConstructible = true ∨ tr.copyConstructible = false)) ∧
    (tr.nothrowMoveConstructible = true →
      (EmplaceBackGrowCounts tr v x).2.1 = 0 ∧
      (EmplaceBackGrowCounts tr v x).2.2 = v.size) := by
  rcases tr with ⟨nm, cc⟩
  cases nm <;> cases cc <;>
    simp [relocUsesMove, EmplaceBackGrowCounts, relocCounts]

theorem c5_reloc_policy_witness :
    (EmplaceBackGrowCounts ⟨true, true⟩ (⟨[1, 2], 2⟩ : Vector Nat) 3).2.1 = 0 ∧
    (EmplaceBackGrowCounts ⟨true, true⟩ (⟨[1, 2], 2⟩ : Vector Nat) 3).2.2 = 2 :=
  (c5_reloc_policy ⟨true, true⟩ ⟨[1, 2], 2⟩ 3).2 (by decide)

/-- C9: self copy assignment (the `this != &rhs` guard firing, embedded as
`isSelf = true` with both arguments the same vector) returns the vector
unchanged and performs no element copy construction, copy assignment, or
destruction. -/
theorem c9_self_assignment_noop (a : Vector α) :
    copyAssignOps true a a = (a, ⟨0, 0, 0⟩) := rfl

/-- C10: the shrinking operations leave the capacity unchanged: `Resize` to a
smaller size, `PopBack`, and `Erase` at any position. -/
theorem c10_shrink_preserves_capacity [Inhabited α] (v : Vector α)
    (k i : Nat) :
    (k < v.size → (Resize v k).capacity = v.capacity) ∧
    (PopBack v).capacity = v.capacity ∧
    (Erase v i).capacity = v.capacity := by
  refine ⟨fun h => ?_, rfl, rfl⟩
  simp only [Resize, if_pos h]

theorem c10_shrink_preserves_capacity_witness :
    (Resize (⟨[1, 2, 3], 4⟩ : Vector Nat) 1).capacity = 4 ∧
    (PopBack (⟨[1, 2, 3], 4⟩ : Vector Nat)).capacity = 4 ∧
    (Erase (⟨[1, 2, 3], 4⟩ : Vector Nat) 0).capacity = 4 :=
  ⟨(c10_shrink_preserves_capacity ⟨[1, 2, 3], 4⟩ 1 0).1 (by decide),
   (c10_shrink_preserves_capacity ⟨[1, 2, 3], 4⟩ 1 0).2.1,
   (c10_shrink_preserves_capacity ⟨[1, 2, 3], 4⟩ 1 0).2.2⟩

/-- C7: a successful `Emplace` (and so `Insert`) of `x` at index `i ≤ n`
yields size `n + 1`, reading index `i` returns `x`, the prefix `[0, i)` is
unchanged, and the elements formerly at `[i, n)` sit at `[i+1, n+1)` in the
same order; this covers both the in-place and the reallocating dispatch of
`Emplace`. -/
theorem c7_insert_spec [Inhabited α] (v : Vector α) (i : Nat) (x : α)
    (h : i ≤ v.size) :
    (Emplace v i x).size = v.size + 1 ∧
    (Emplace v i x).data.getD i default = x ∧
    (∀ j, j < i →
      (Emplace v i x).data.getD j default = v.data.getD j default) ∧
    (∀ j, i ≤ j → j < v.size →
      (Emplace v i x).data.getD (j + 1) default = v.data.getD j default) := by
  have hd := Emplace_data v i x h
  have hn : i ≤ v.data.length := h
  have hlen : (Emplace v i x).data.length = v.data.length + 1 := by
    rw [hd, List.length_insertIdx _ _ hn]
  refine ⟨?_, ?_, ?_, ?_⟩
  · show (Emplace v i x).data.length = v.data.length + 1
    exact hlen
  · rw [List.getD_eq_getElem _ _ (by omega)]
    have hself := List.getElem_insertIdx_self v.data x i hn
    simp only [hd]
    exact hself
  · intro j hj
    rw [List.getD_eq_getElem _ _ (by omega),
      List.getD_eq_getElem _ _ (show j < v.data.length by omega)]
    simp only [hd]
    rw [List.getElem_insertIdx_of_lt v.data x i j hj (by omega)]
  · intro j hij hjn
    have hjn1 : j < v.data.length := hjn
    rw [List.getD_eq_getElem _ _ (by omega),
      List.getD_eq_getElem _ _ hjn1]
    simp only [hd]
    have hstep := List.getElem_insertIdx_add_succ v.data x i (j - i)
      (by omega) (by rw [List.length_insertIdx _ _ hn]; omega)
    have hrw : i + (j - i) = j := by omega
    convert hstep using 2 <;> omega

theorem c7_insert_spec_witness :
    (Emplace (⟨[1, 2, 3], 4⟩ : Vector Nat) 1 9).size = 4 ∧
    (Emplace (⟨[1, 2, 3], 4⟩ : Vector Nat) 1 9).data.getD 1 0 = 9 ∧
    (Emplace (⟨[1, 2, 3], 4⟩ : Vector Nat) 1 9).data.getD 0 0 = 1 ∧
    (Emplace (⟨[1, 2, 3], 4⟩ : Vector Nat) 1 9).data.getD 2 0 = 2 := by
  have h := c7_insert_spec (⟨[1, 2, 3], 4⟩ : Vector Nat) 1 9 (by decide)
  exact ⟨h.1, h.2.1, h.2.2.1 0 (by decide), h.2.2.2 1 (by decide) (by decide)⟩

/-- C8: `Erase` at index `i < n` reduces the size to `n - 1`, leaves the
prefix `[0, i)` unchanged, and moves the elements formerly at `(i, n)` to
`[i, n-1)` in their original order. -/
theorem c8_erase_spec [Inhabited α] (v : Vector α) (i : Nat)
    (h : i < v.size) :
    (Erase v i).size = v.size - 1 ∧
    (∀ j, j < i →
      (Erase v i).data.getD j default = v.data.getD j default) ∧
    (∀ j, i ≤ j → j < v.size - 1 →
      (Erase v i).data.getD j default = v.data.getD (j + 1) default) := by
  have hd := Erase_data v i h
  have hn : i < v.data.length := h
  have hlen : (Erase v i).data.length = v.data.length - 1 := by
    rw [hd, List.length_eraseIdx_of_lt hn]
  refine ⟨?_, ?_, ?_⟩
  · show (Erase v i).data.length = v.data.length - 1
    exact hlen
  · intro j hj
    rw [List.getD_eq_getElem _ _ (by omega),
      List.getD_eq_getElem _ _ (show j < v.data.length by omega)]
    simp only [hd]
    rw [List.getElem_eraseIdx_of_lt v.data i j
      (by rw [List.length_eraseIdx_of_lt hn]; omega) hj]
  · intro j hij hjn
    have hjn1 : j + 1 < v.data.length := by
      have : v.size = v.data.length := rfl
      omega
    rw [List.getD_eq_getElem _ _ (by omega),
      List.getD_eq_getElem _ _ hjn1]
    simp only [hd]
    rw [List.getElem_eraseIdx_of_ge v.data i j
      (by rw [List.length_eraseIdx_of_lt hn]; omega) hij]

theorem c8_erase_spec_witness :
    (Erase (⟨[1, 2, 3], 4⟩ : Vector Nat) 1).size = 2 ∧
    (Erase (⟨[1, 2, 3], 4⟩ : Vector Nat) 1).data.getD 0 0 = 1 ∧
    (Erase (⟨[1, 2, 3], 4⟩ : Vector Nat) 1).data.getD 1 0 = 3 := by
  have h := c8_erase_spec (⟨[1, 2, 3], 4⟩ : Vector Nat) 1 (by decide)
  exact ⟨h.1, h.2.1 0 (by decide), h.2.2 1 (by decide) (by decide)⟩

/-- On the in-capacity branch the prefix overwrite plus tail construction or
excess destruction leaves exactly the source values at the old capacity. -/
theorem copyAssignDistinct_eq {a rhs : Vector α} (h : rhs.size ≤ a.capacity) :
    copyAssignDistinct a rhs = ⟨rhs.data, a.capacity⟩ := by
  have hsz : rhs.size = rhs.data.length := rfl
  have hsa : a.size = a.data.length := rfl
  unfold copyAssignDistinct
  rw [if_neg (by omega)]
  by_cases h2 : a.size < rhs.size
  · rw [if_pos h2, Nat.min_eq_left (by omega)]
    have hdrop : a.data.drop a.size = [] := by
      rw [hsa, List.drop_length]
    rw [hdrop, List.append_nil]
    rw [List.take_append_drop]
  · rw [if_neg h2, Nat.min_eq_right (by omega)]
    have htake : rhs.data.take rhs.size = rhs.data := by
      rw [hsz, List.take_length]
    rw [htake, List.take_left' hsz.symm]

/-- C6: copy assignment between distinct vectors. When the source size
exceeds the destination capacity, a full temporary is built and swapped in
(`⟨rhs.data, rhs.size⟩`), and a copy failure while building it leaves the
destination untouched; otherwise no reallocation happens — the capacity stays,
the prefix is overwritten, the tail is copy-constructed or the excess
destroyed, and the result holds exactly the source elements at the source
size. -/
theorem c6_copy_assign_spec (ok : Nat → Bool) (a rhs : Vector α) :
    (a.capacity < rhs.size →
      ((copyAssignFallible ok a rhs).2 = false →
        (copyAssignFallible ok a rhs).1 = a) ∧
      ((copyAssignFallible ok a rhs).2 = true →
        (copyAssignFallible ok a rhs).1 = ⟨rhs.data, rhs.size⟩)) ∧
    (rhs.size ≤ a.capacity →
      copyAssignDistinct a rhs = ⟨rhs.data, a.capacity⟩ ∧
      (copyAssignFallible ok a rhs).2 = true) := by
  constructor
  · intro h
    unfold copyAssignFallible
    rw [if_pos h]
    rcases hc : uninitializedCopyN ok rhs.data 0 with ⟨r, j, L⟩
    cases r with
    | error e => exact ⟨fun _ => rfl, fun hcon => by simp at hcon⟩
    | ok copied =>
      have he : copied = rhs.data := uninitializedCopyN_ok_eq ok _ 0 _ _ _ hc
      exact ⟨fun hcon => by simp at hcon, fun _ => by rw [he]⟩
  · intro h
    refine ⟨copyAssignDistinct_eq h, ?_⟩
    unfold copyAssignFallible
    rw [if_neg (by omega)]

theorem c6_copy_assign_spec_witness :
    (copyAssignFallible (fun _ => false) (⟨[1], 1⟩ : Vector Nat)
      ⟨[7, 8], 2⟩).1 = ⟨[1], 1⟩ ∧
    (copyAssignFallible (fun _ => true) (⟨[1], 1⟩ : Vector Nat)
      ⟨[7, 8], 2⟩).1 = ⟨[7, 8], 2⟩ ∧
    copyAssignDistinct (⟨[1, 2, 3], 4⟩ : Vector Nat) ⟨[7, 8], 2⟩ =
      ⟨[7, 8], 4⟩ :=
  ⟨((c6_copy_assign_spec (fun _ => false) ⟨[1], 1⟩ ⟨[7, 8], 2⟩).1
      (by decide)).1 (by decide),
   ((c6_copy_assign_spec (fun _ => true) ⟨[1], 1⟩ ⟨[7, 8], 2⟩).1
      (by decide)).2 (by decide),
   ((c6_copy_assign_spec (fun _ => true) ⟨[1, 2, 3], 4⟩ ⟨[7, 8], 2⟩).2
      (by decide)).1⟩

/-- C2 counterexample: with a nothrow-move element type whose moved-from
state is empty (a string-like type, embedded as `List Nat` with residue
`[]`), a failing final construction on the growth path propagates the
failure, yet the container elements are not identical to their pre-call
values: the old block remains the storage but now holds the moved-from
residues. -/
theorem c2_counterexample :
    (EmplaceBackGrowMove (fun _ => ([] : List Nat)) false ⟨[[1]], 1⟩ [5]).2.1
      = false ∧
    (EmplaceBackGrowMove (fun _ => ([] : List Nat)) false
      ⟨[[1]], 1⟩ [5]).1 ≠ ⟨[[1]], 1⟩ := by
  constructor
  · rfl
  · decide

/-- C2 (amended): on the growth path of `EmplaceBack`, if the relocation is
by copy (fallible copy constructor) and any copy or the final construction
fails, the failure propagates with the receiver exactly as before the call
and every object constructed in the new block destroyed (balanced ledger);
if the relocation is by move (never-failing move) and the final construction
fails, size and capacity are preserved and the ledger is balanced, but the
old elements may hold moved-from residues. -/
theorem c2_growth_failure_amended (ok : Nat → Bool) (ctorOk : Bool)
    (v : Vector α) (x : α) (movedFrom : α → α) :
    ((EmplaceBackGrowCopy ok ctorOk v x).2.1 = false →
      (EmplaceBackGrowCopy ok ctorOk v x).1 = v ∧
      (EmplaceBackGrowCopy ok ctorOk v x).2.2.constructed =
        (EmplaceBackGrowCopy ok ctorOk v x).2.2.destroyed) ∧
    ((EmplaceBackGrowMove movedFrom ctorOk v x).2.1 = false →
      (EmplaceBackGrowMove movedFrom ctorOk v x).1.size = v.size ∧
      (EmplaceBackGrowMove movedFrom ctorOk v x).1.capacity = v.capacity ∧
      (EmplaceBackGrowMove movedFrom ctorOk v x).2.2.constructed =
        (EmplaceBackGrowMove movedFrom ctorOk v x).2.2.destroyed) := by
  constructor
  · intro hfail
    unfold EmplaceBackGrowCopy at *
    rcases hc : uninitializedCopyN ok v.data 0 with ⟨r, j, L⟩
    cases r with
    | error e =>
      have hb := uninitializedCopyN_error_balanced ok _ 0 _ _ _ hc
      simp [hc, hb]
    | ok relocated =>
      cases ctorOk with
      | true => rw [hc] at hfail; simp at hfail
      | false =>
        rcases uninitializedCopyN_ok_ledger ok _ 0 _ _ _ hc with ⟨hcon, hdes⟩
        simp [hc, hcon, hdes, size]
  · intro hfail
    cases ctorOk with
    | true => simp [EmplaceBackGrowMove] at hfail
    | false =>
      refine ⟨?_, rfl, rfl⟩
      simp [EmplaceBackGrowMove, size]

theorem c2_growth_failure_amended_witness :
    (EmplaceBackGrowCopy (fun _ => false) true (⟨[3], 1⟩ : Vector Nat) 4).1
      = ⟨[3], 1⟩ ∧
    (EmplaceBackGrowCopy (fun _ => false) true
        (⟨[3], 1⟩ : Vector Nat) 4).2.2.constructed =
      (EmplaceBackGrowCopy (fun _ => false) true
        (⟨[3], 1⟩ : Vector Nat) 4).2.2.destroyed ∧
    (EmplaceBackGrowMove (fun _ => 0) false (⟨[3], 1⟩ : Vector Nat) 4).1.size
      = 1 := by
  have h1 := (c2_growth_failure_amended (fun _ => false) true
    (⟨[3], 1⟩ : Vector Nat) 4 (fun _ => 0)).1 (by decide)
  have h2 := (c2_growth_failure_amended (fun _ => false) false
    (⟨[3], 1⟩ : Vector Nat) 4 (fun _ => 0)).2 (by decide)
  exact ⟨h1.1, h1.2, h2.1⟩

/-- C1: evaluating the reallocating `Emplace` at the failing input. The
container `[10]` is full (`size = capacity = 1`); `Emplace` at position 1
relocates by copy and the construction of the new element fails. The
receiver is untouched and the failure propagates, but the one element
already copy-constructed into the new block is never destroyed
(`constructed = 1`, `destroyed = 0`): `EmplaceWithRealloc` has no cleanup
handler, unlike `EmplaceBack`, so the claimed destruction of partially
constructed objects does not happen. -/
theorem c1_realloc_insert_leak :
    EmplaceWithReallocCopy (fun _ => true) false (⟨[10], 1⟩ : Vector Nat) 1 99
      = (⟨[10], 1⟩, false, ⟨1, 0⟩) ∧
    (EmplaceWithReallocCopy (fun _ => true) false
        (⟨[10], 1⟩ : Vector Nat) 1 99).2.2.constructed ≠
      (EmplaceWithReallocCopy (fun _ => true) false
        (⟨[10], 1⟩ : Vector Nat) 1 99).2.2.destroyed := by
  constructor
  · rfl
  · decide

end Vector

end AdvVector
